import Mathlib

/-!
A verification development for the import-to-dependency resolver of
rules_nodejs_gazelle (src/gazelle/resolve.go).  The Go code is embedded
shallowly: pure helpers become Lean functions, the per-unit `Resolve`
pass becomes a function from an explicit read-only environment (Build
Index, override table, filesystem stat, kind mapping) and configuration
to the unit's rewritten attributes.  Go `map` iteration order is not
deterministic; wherever the source ranges over a map the model takes the
entries as a list, standing for one admissible iteration order.  The
`resolveWalkParents` loop of the source has no structural termination
measure, so it is modelled with an explicit fuel parameter: a `none`
result means the loop was still running after `fuel` iterations, for
every choice of fuel.
-/

/-! ## String helpers (models of Go `strings` functions used by the source) -/

/-- Model of byte-wise prefix testing used by Go `strings.HasPrefix`. -/
def listIsPre : List Char → List Char → Bool
  | [], _ => true
  | _ :: _, [] => false
  | a :: as, b :: bs => a = b && listIsPre as bs

/-- Model of Go `strings.HasPrefix s pre`. -/
def strStarts (s pre : String) : Bool := listIsPre pre.data s.data

/-- Model of Go `strings.HasSuffix s suf`. -/
def strEnds (s suf : String) : Bool := listIsPre suf.data.reverse s.data.reverse

/-- Drop the first `pre.length` characters of `s`. -/
def dropPre (s pre : String) : String := String.mk (s.data.drop pre.data.length)

/-- Model of Go `strings.TrimPrefix`. -/
def trimPre (s pre : String) : String := if strStarts s pre then dropPre s pre else s

/-- Split a character list at `'/'` separators (model of Go
`strings.Split(s, "/")`, specialised to the only separator the source
uses).  The accumulator holds the characters of the current segment. -/
def splitGo : List Char → List Char → List String
  | [], acc => [String.mk acc]
  | c :: rs, acc => if c = '/' then String.mk acc :: splitGo rs [] else splitGo rs (acc ++ [c])

/-- Model of Go `strings.Split(s, "/")`. -/
def splitSlash (s : String) : List String := splitGo s.data []

/-- Join segments with `'/'` (model of the joining side of Go `path`
functions and of `strings.Join(segs, "/")`). -/
def joinSegs : List String → String
  | [] => ""
  | [a] => a
  | a :: rest => a ++ "/" ++ joinSegs rest

/-! ## Model of Go `path.Clean` / `path.Join` / `path.Dir` / `path.Base`

Go `path.Clean` removes `.` and empty segments and resolves `..`
against preceding segments; `..` at the start of a relative path is
kept, and at the root of an absolute path is dropped.  The model works
segment-wise, which agrees with the byte-level Go implementation on all
slash-separated paths. -/

/-- One step of the `path.Clean` segment stack (head of `st` is the most
recent surviving segment). -/
def cleanStep (rooted : Bool) (st : List String) (seg : String) : List String :=
  if seg = "" ∨ seg = "." then st
  else if seg = ".." then
    match st with
    | [] => if rooted then [] else [".."]
    | top :: rest => if top = ".." then seg :: top :: rest else rest
  else seg :: st

/-- Model of Go `path.Clean`. -/
def goClean (p : String) : String :=
  if p = "" then "."
  else
    let rooted := strStarts p "/"
    let st := (splitSlash p).foldl (cleanStep rooted) []
    let body := joinSegs st.reverse
    if rooted then (if body = "" then "/" else "/" ++ body)
    else (if body = "" then "." else body)

/-- Model of Go `path.Join`: empty elements are skipped; all elements
empty yields `""`; otherwise the slash-joined string is cleaned. -/
def goJoin (parts : List String) : String :=
  match parts.filter (fun s => s != "") with
  | [] => ""
  | ne => goClean (joinSegs ne)

/-- Model of Go `path.Dir`. -/
def goDir (p : String) : String :=
  match splitSlash p with
  | [] => "."
  | [_] => "."
  | segs => goClean (joinSegs segs.dropLast ++ "/")

/-- Model of Go `path.Base`. -/
def goBase (p : String) : String :=
  if p = "" then "."
  else
    match (splitSlash p).filter (fun s => s != "") with
    | [] => "/"
    | ne => ne.getLastD ""

/-! ## Bazel labels

Model of the external `bazel-gazelle` `label.Label` type at its
interface: fields `Repo`, `Pkg`, `Name`, `Relative`, with `String`,
`Abs`, `Rel` and structural `Equal` as implemented by that library. -/

structure Label where
  repo : String
  pkg : String
  name : String
  relative : Bool
deriving DecidableEq

/-- Model of gazelle `label.NoLabel` (the zero value). -/
def Label.noLabel : Label := ⟨"", "", "", false⟩

/-- Model of gazelle `label.Label.String()`. -/
def labelRender (l : Label) : String :=
  if l.relative then ":" ++ l.name
  else
    let rp := if l.repo ≠ "" ∧ l.repo ≠ "@" then "@" ++ l.repo else l.repo
    if goBase l.pkg = l.name then rp ++ "//" ++ l.pkg
    else rp ++ "//" ++ l.pkg ++ ":" ++ l.name

/-- Model of gazelle `label.Label.Abs(repo, pkg)`. -/
def Label.abs (l : Label) (repo pkg : String) : Label :=
  if l.relative then ⟨repo, pkg, l.name, false⟩ else l

/-- Model of gazelle `label.Label.Rel(repo, pkg)`. -/
def Label.rel (l : Label) (repo pkg : String) : Label :=
  if l.relative ∨ l.repo ≠ repo then l
  else if l.pkg = pkg then ⟨"", "", l.name, true⟩
  else ⟨"", l.pkg, l.name, false⟩

/-! ## Configuration and environment -/

/-- The per-scope configuration consulted by `Resolve` (the fields of
`JsConfig` that the resolver reads).  Dependency tables are association
lists standing for the Go maps `NpmDependencies.Dependencies` and
`NpmDependencies.DevDependencies` (Go map keys are unique, so first
match is the map lookup). -/
structure JsConfig where
  importAliases : List (String × String)
  dependencies : List (String × String)
  devDependencies : List (String × String)
  defaultNpmLabel : String
  lookupTypes : Bool
  jsRoot : String
  webAssetSuffixes : List String
  quiet : Bool
  verbose : Bool
deriving DecidableEq

/-- Go map lookup on an association list with unique keys. -/
def lookupTbl : List (String × String) → String → Option String
  | [], _ => none
  | (k, v) :: rest, key => if k = key then some v else lookupTbl rest key

/-- The read-only collaborators of one resolution pass:
`override` models `resolve.FindRuleWithOverride` (keyed by the import
string; the language tag is fixed), `index` models
`ix.FindRulesByImportWithConfig` returning the owning labels, `stat`
models `os.Stat(path.Join(c.RepoRoot, target))` returning
`fileInfo.Name()` when a non-directory file exists, and `mappedKind`
models `getKind` (modelled from the spec: the configured kind mapping
that recognizes the test kind). -/
structure ResolveEnv where
  override : String → Option Label
  index : String → List Label
  stat : String → Option String
  mappedKind : String → String

/-- BUILTINS list, translated verbatim from the source. -/
def BUILTINS : List String :=
  ["assert", "async_hooks", "buffer", "child_process", "cluster", "console",
   "constants", "crypto", "dgram", "dns", "domain", "events", "fs", "http",
   "http2", "https", "inspector", "module", "net", "os", "path", "perf_hooks",
   "process", "punycode", "querystring", "readline", "repl", "stream",
   "string_decoder", "timers", "tls", "trace_events", "tty", "url", "util",
   "v8", "vm", "wasi", "worker_threads", "zlib"]

/-- Modelled from the spec: the declared source extensions for typed
modules (`tsExtensions`, declared outside src/). -/
def tsExtensions : List String := [".ts", ".tsx"]

/-- Modelled from the spec: the declared source extensions for untyped
modules (`jsExtensions`, declared outside src/). -/
def jsExtensions : List String := [".js", ".jsx"]

/-- Modelled from the spec: `isWebAsset` (declared outside src/)
recognizes non-code asset paths by their configured suffixes. -/
def isWebAsset (cfg : JsConfig) (p : String) : Bool :=
  cfg.webAssetSuffixes.any (fun suf => strEnds p suf)

/-- Modelled from the spec: the combined `ImportAliasPattern` matches an
identifier exactly when one of the alias "from" strings is a prefix of
it, and `match[0]` is that matched prefix; the source then replaces the
prefix with the alias whose `From` equals it (resolve.go lines 192-205). -/
def applyAliases (aliases : List (String × String)) (name : String) : String :=
  match aliases.find? (fun a => strStarts name a.1) with
  | some a => a.2 ++ trimPre name a.1
  | none => name

/-! ## isNpmDependency (resolve.go lines 394-444) -/

/-- The prefixes that can never start an NPM dependency
(`var prefixes` in `isNpmDependency`). -/
def npmExcludedPre : List String := [".", "/", "../", "~/", "@/", "~~/"]

/-- Model of the source helper `hasPrefix(prefixes, x)` (renamed: any of
the given prefixes starts `x`). -/
def hasAnyPre (pres : List String) (x : String) : Bool :=
  pres.any (fun p => strStarts x p)

/-- The package-root extraction loop of `isNpmDependency`: scan for the
first `'/'`; the prefix before it is the root unless it is exactly
`"@types"`, in which case scanning continues; no slash (or only the
`"@types"` slash) leaves the whole import as root.  `pre` holds the
characters scanned so far, `imp` the whole import. -/
def packageRootGo (pre : List Char) (rest : List Char) (imp : String) : String :=
  match rest with
  | [] => imp
  | c :: rs =>
    if c = '/' then
      if String.mk pre = "@types" then packageRootGo (pre ++ [c]) rs imp
      else String.mk pre
    else packageRootGo (pre ++ [c]) rs imp

/-- The package root used for the dependency-table lookups. -/
def packageRootOf (imp : String) : String := packageRootGo [] imp.data imp

/-- Model of `isNpmDependency` (resolve.go lines 394-435): returns
(is-npm, npm label, is-dev-dependency). -/
def isNpmDependency (imp : String) (cfg : JsConfig) : Bool × String × Bool :=
  if hasAnyPre npmExcludedPre imp then (false, "", false)
  else
    let root := packageRootOf imp
    match lookupTbl cfg.dependencies root with
    | some l => (true, l, false)
    | none =>
      match lookupTbl cfg.devDependencies root with
      | some l => (true, l, true)
      | none =>
        if strStarts imp "@types" then (false, "", false)
        else if strStarts imp "@" then (true, cfg.defaultNpmLabel, false)
        else (false, "", false)

/-! ## tryResolve (resolve.go lines 446-527) -/

structure ResolveResult where
  label : Label
  selfImport : Bool
  fileName : String
  err : Option String
deriving DecidableEq

/-- The override label with an empty repo filled in from the importing
unit (`if override.Repo == "" { override.Repo = from.Repo }`). -/
def normOv (ov frm : Label) : Label :=
  if ov.repo = "" then { ov with repo := frm.repo } else ov

/-- Drop the repo of an override label that lives in the importing
unit's repo (`if override.Repo == from.Repo { override.Repo = "" }`). -/
def derelOv (ov frm : Label) : Label :=
  if ov.repo = frm.repo then { ov with repo := "" } else ov

/-- The Build Index part of `tryResolve`: more than one owner is a fatal
error naming the first two owners; one owner is either the querying unit
itself (`IsSelfImport`, modelled as label equality with `frm`, the
index's "owner is the querying unit" signal) or a resolved label; no
owner falls back to an on-disk file check. -/
def tryResolveIdx (env : ResolveEnv) (target : String) (frm : Label) : ResolveResult :=
  match env.index target with
  | m0 :: m1 :: _ =>
    { label := Label.noLabel, selfImport := false, fileName := "",
      err := some ("multiple rules (" ++ labelRender m0 ++ " and " ++ labelRender m1
        ++ ") provide " ++ target) }
  | [] =>
    match env.stat target with
    | some nm => { label := Label.noLabel, selfImport := false, fileName := nm, err := none }
    | none => { label := Label.noLabel, selfImport := false, fileName := "", err := none }
  | [m] =>
    if m = frm then { label := Label.noLabel, selfImport := true, fileName := "", err := none }
    else { label := m, selfImport := false, fileName := "", err := none }

/-- Model of `tryResolve` (resolve.go lines 453-527).  An override hit
whose normalized label differs from the importing unit is returned
directly; a hit equal to the importing unit falls through to the Build
Index query, exactly as in the source. -/
def tryResolve (env : ResolveEnv) (target : String) (frm : Label) : ResolveResult :=
  match env.override target with
  | some ov0 =>
    let ov1 := normOv ov0 frm
    if ov1 = frm then tryResolveIdx env target frm
    else { label := derelOv ov1 frm, selfImport := false, fileName := "", err := none }
  | none => tryResolveIdx env target frm

/-! ## resolveWalkParents (resolve.go lines 311-391) -/

/-- Deduplicating set insertion: the Go sets are `map[string]bool`; the
model keeps the members as a list in insertion order (one admissible
iteration order of the final map). -/
def insertD (s : String) (l : List String) : List String :=
  if s ∈ l then l else l ++ [s]

inductive ExtOutcome where
  | done : List String × List String → ExtOutcome
  | cont : ExtOutcome
deriving DecidableEq

/-- The inner `for _, ext := range extraExtensionsToTry` loop of
`resolveWalkParents`: the first probe that errs (logged in the source),
self-imports, resolves, or finds a file on disk ends the identifier;
otherwise the next extension is tried.  `done` carries the updated
(deps, data) sets. -/
def extLoop (env : ResolveEnv) (cfg : JsConfig) (target : String) (frm : Label)
    (d dt : List String) : List String → ExtOutcome
  | [] => .cont
  | ext :: rest =>
    let filePath := target ++ ext
    let rr := tryResolve env filePath frm
    if rr.err ≠ none then .done (d, dt)
    else if rr.selfImport then .done (d, dt)
    else if rr.label ≠ Label.noLabel then
      let dep := labelRender (Label.rel rr.label frm.repo frm.pkg)
      if isWebAsset cfg filePath then .done (d, insertD dep dt)
      else .done (insertD dep d, dt)
    else if rr.fileName ≠ "" then
      .done (d, insertD ("//" ++ goDir target ++ ":" ++ rr.fileName) dt)
    else extLoop env cfg target frm d dt rest

/-- One-per-ancestor-directory iteration of `resolveWalkParents`,
recursing on explicit fuel (the source loop has no termination measure).
`parents` is the accumulated `"../"` prefix.  A `none` result means the
fuel ran out with the loop still going. -/
def walkGoF (fuel : Nat) (env : ResolveEnv) (cfg : JsConfig) (name : String)
    (parents : String) (d dt : List String) (frm : Label) :
    Option (List String × List String) :=
  match fuel with
  | 0 => none
  | fuel + 1 =>
    let name := if name = "package" then "package.json" else name
    let name := if name = "." then "index" else name
    let localDir := goJoin [frm.pkg, parents]
    let target := goJoin [localDir, name]
    let exts := if isWebAsset cfg target then [""] else "" :: (tsExtensions ++ jsExtensions)
    match extLoop env cfg target frm d dt exts with
    | .done r => some r
    | .cont =>
      if cfg.jsRoot = localDir ∨ localDir = "." then some (d, dt)
      else walkGoF fuel env cfg name (parents ++ "../") d dt frm

/-- Model of `resolveWalkParents` (resolve.go lines 311-391), starting
with no parent steps. -/
def resolveWalkParentsF (fuel : Nat) (env : ResolveEnv) (cfg : JsConfig) (name : String)
    (d dt : List String) (frm : Label) : Option (List String × List String) :=
  walkGoF fuel env cfg name "" d dt frm

/-! ## Resolve (resolve.go lines 160-309) -/

/-- A build unit as the resolver sees it: its kind and the two rendered
attribute slots (`none` models an absent attribute). -/
structure Rule where
  kind : String
  deps : Option (List String)
  data : Option (List String)
deriving DecidableEq

/-- The npm branch of the identifier loop (resolve.go lines 209-231):
the import is truncated to its package name (first segment, or first two
segments for a scoped `@...` import), added to the deps set, added to
the data set unless it is a dev dependency, and for typed units an
optional `@types/` companion is looked up for an extra deps entry. -/
def mkNpmName (name : String) : String :=
  match splitSlash name with
  | [] => ""
  | [a] => a
  | a :: b :: _ => if strStarts a "@" then a ++ "/" ++ b else a

def npmBranchAdd (cfg : JsConfig) (kind : String) (npmLabel : String) (devDep : Bool)
    (name : String) (d dt : List String) : List String × List String :=
  let nm := mkNpmName name
  let d1 := insertD (npmLabel ++ nm) d
  let dt1 := if devDep then dt else insertD (npmLabel ++ nm) dt
  let d2 :=
    if cfg.lookupTypes ∧ kind = "ts_project" then
      let tr := isNpmDependency ("@types/" ++ nm) cfg
      if tr.1 then insertD (tr.2.1 ++ "@types/" ++ nm) d1 else d1
    else d1
  (d2, dt1)

/-- Processing of one identifier of the unit (the body of
`for name := range imports.set`, resolve.go lines 184-266).  Returns the
updated (deps, data) sets, or `none` when the local-path walk ran out of
fuel. -/
def processName (fuel : Nat) (env : ResolveEnv) (cfg : JsConfig) (kind : String)
    (frm : Label) (pkgJSON : String) (d dt : List String) (name0 : String) :
    Option (List String × List String) :=
  if name0 = "package" ∨ name0 = "package.json" then some (insertD pkgJSON d, dt)
  else
    let name := applyAliases cfg.importAliases name0
    let npmRes := isNpmDependency name cfg
    if npmRes.1 then some (npmBranchAdd cfg kind npmRes.2.1 npmRes.2.2 name d dt)
    else if strStarts name "node:" then
      if cfg.lookupTypes ∧ kind = "ts_project" then
        let tr := isNpmDependency "@types/node" cfg
        if tr.1 then some (insertD (tr.2.1 ++ "@types/node") d, dt) else some (d, dt)
      else some (d, dt)
    else if name ∈ BUILTINS then
      if cfg.lookupTypes ∧ kind = "ts_project" then
        let tr := isNpmDependency ("@types/" ++ name) cfg
        if tr.1 then some (insertD (tr.2.1 ++ "@types/" ++ name) d, dt) else some (d, dt)
      else some (d, dt)
    else
      let rr := tryResolve env name frm
      if rr.err = none ∧ rr.selfImport = false ∧ rr.label ≠ Label.noLabel then
        some (insertD (labelRender (Label.rel rr.label frm.repo frm.pkg)) d, dt)
      else
        resolveWalkParentsF fuel env cfg name d dt frm

/-- Fold `processName` over the unit's identifiers (the identifier set
in one admissible Go map iteration order). -/
def foldNames (fuel : Nat) (env : ResolveEnv) (cfg : JsConfig) (kind : String)
    (frm : Label) (pkgJSON : String) :
    List String → List String → List String → Option (List String × List String)
  | [], d, dt => some (d, dt)
  | n :: rest, d, dt =>
    match processName fuel env cfg kind frm pkgJSON d dt n with
    | none => none
    | some (d', dt') => foldNames fuel env cfg kind frm pkgJSON rest d' dt'

/-- The jest extras loop (resolve.go lines 270-281), folding over the
dev-dependency table in one admissible Go map iteration order. -/
def jestFold : List (String × String) → List String → List String →
    List String × List String
  | [], d, dt => (d, dt)
  | (nm, l) :: rest, d, dt =>
    if nm = "jest-cli" ∨ nm = "jest-junit" then jestFold rest d dt
    else
      let d1 := if strStarts nm "@types/jest" then insertD (l ++ nm) d else d
      let d2 := if strStarts nm "jest" then insertD (l ++ nm) d1 else d1
      let dt2 := if strStarts nm "jest" then insertD (l ++ nm) dt else dt
      jestFold rest d2 dt2

/-- The jest_test extras block (resolve.go lines 269-288). -/
def jestExtras (env : ResolveEnv) (cfg : JsConfig) (kind : String)
    (d dt : List String) : List String × List String :=
  if kind = env.mappedKind "jest_test" then
    let p := jestFold cfg.devDependencies d dt
    let loc := if cfg.jsRoot = "." then "" else cfg.jsRoot
    (p.1, insertD ("//" ++ loc ++ ":package_json") p.2)
  else (d, dt)

/-- The newly computed (deps, data) sets of one resolution pass. -/
def computeSets (fuel : Nat) (env : ResolveEnv) (cfg : JsConfig) (imps : List String)
    (kind : String) (frm : Label) (pkgJSON : String) :
    Option (List String × List String) :=
  match foldNames fuel env cfg kind frm pkgJSON imps [] [] with
  | none => none
  | some (d, dt) => some (jestExtras env cfg kind d dt)

/-- Final rendering (resolve.go lines 290-308): a non-empty set is
written onto the attribute, an empty one removes it. -/
def renderRule (r : Rule) (d dt : List String) : Rule :=
  { r with deps := if d = [] then none else some d,
           data := if dt = [] then none else some dt }

/-- Model of `Resolve` (resolve.go lines 160-309).  A manifest-lookup
error or manifest self-import returns the unit unchanged (the source
`return`s before touching any attribute); otherwise the computed sets
replace the attributes.  `none` means a local-path walk exhausted its
fuel. -/
def ResolveF (fuel : Nat) (env : ResolveEnv) (cfg : JsConfig) (imps : List String)
    (r : Rule) (frm : Label) : Option Rule :=
  let pr := tryResolve env "package.json" frm
  if pr.err ≠ none then some r
  else if pr.selfImport then some r
  else
    let pkgJSON :=
      if pr.label ≠ Label.noLabel then labelRender (Label.abs pr.label frm.repo frm.pkg)
      else "//:package"
    match computeSets fuel env cfg imps r.kind frm pkgJSON with
    | none => none
    | some (d, dt) => some (renderRule r d dt)

/-! ## Concrete fixtures used by the theorems below -/

/-- A baseline configuration: no aliases, empty tables, default npm
label `"@npm//"`, type lookup off, project root `"."`. -/
def cfg0 : JsConfig :=
  { importAliases := [], dependencies := [], devDependencies := [],
    defaultNpmLabel := "@npm//", lookupTypes := false, jsRoot := ".",
    webAssetSuffixes := [], quiet := false, verbose := false }

/-- An environment with an empty override table, empty Build Index, no
files on disk, and the identity kind mapping. -/
def envEmpty : ResolveEnv :=
  { override := fun _ => none, index := fun _ => [], stat := fun _ => none,
    mappedKind := fun k => k }

/-- A unit at package `p` named `t` in the main repository. -/
def unitP : Label := ⟨"", "p", "t", false⟩

/-- Build Index where `"p/a"` has two owners and `"p/b"` has one. -/
def envAmb : ResolveEnv := { envEmpty with
  index := fun t =>
    if t = "p/a" then [⟨"", "a", "x", false⟩, ⟨"", "b", "y", false⟩]
    else if t = "p/b" then [⟨"", "p", "bb", false⟩] else [] }

/-- Dev-dependency table containing the jest package. -/
def cfgJest : JsConfig := { cfg0 with devDependencies := [("jest", "@npm//")] }

/-- Dependency table with two entries, for exercising emission order. -/
def cfgTwo : JsConfig := { cfg0 with dependencies := [("zz", "@npm//"), ("aa", "@npm//")] }

/-- Dependency table keyed by the full scoped package name
`"@foo/bar"`, with a distinct default label. -/
def cfgScoped : JsConfig :=
  { cfg0 with dependencies := [("@foo/bar", "@npm//")], defaultNpmLabel := "@default//" }

/-- Dependency table mapping `lodash` to the local label prefix
`"//p:"`. -/
def cfgLocalNpm : JsConfig := { cfg0 with dependencies := [("lodash", "//p:")] }

/-- Build Index where the manifest identifier `"package.json"` has two
owners, so the manifest probe fails. -/
def envManifestAmb : ResolveEnv := { envEmpty with
  index := fun t =>
    if t = "package.json" then [⟨"", "a", "x", false⟩, ⟨"", "b", "y", false⟩] else [] }

/-- Override table mapping `"x"` to the importing unit `unitP` itself,
while the Build Index owns `"x"` through a different rule. -/
def envOvSelf : ResolveEnv := { envEmpty with
  override := fun t => if t = "x" then some ⟨"", "p", "t", false⟩ else none,
  index := fun t => if t = "x" then [⟨"", "q", "u", false⟩] else [] }

/-- A unit that lives in the repository-root package (`Pkg == ""`). -/
def unitRoot : Label := ⟨"", "", "app", false⟩

/-- The accumulated `parents` string after `n` iterations of the
ancestor walk: `"../"` repeated `n` times. -/
def dupPar : Nat → String
  | 0 => ""
  | n + 1 => dupPar n ++ "../"

/-! ## Helper lemmas -/

theorem mem_insertD {t s : String} {l : List String} :
    t ∈ insertD s l ↔ t = s ∨ t ∈ l := by
  by_cases hs : s ∈ l
  · simp only [insertD, if_pos hs]
    constructor
    · exact Or.inr
    · rintro (rfl | h)
      · exact hs
      · exact h
  · simp [insertD, if_neg hs, or_comm]

theorem self_mem_insertD (s : String) (l : List String) : s ∈ insertD s l :=
  mem_insertD.mpr (Or.inl rfl)

theorem mem_insertD_of_mem {t : String} (s : String) {l : List String} (h : t ∈ l) :
    t ∈ insertD s l :=
  mem_insertD.mpr (Or.inr h)

theorem insertD_nodup {l : List String} (s : String) (h : l.Nodup) :
    (insertD s l).Nodup := by
  by_cases hs : s ∈ l
  · simpa [insertD, if_pos hs]
  · simp [insertD, if_neg hs, List.nodup_append, h, hs]

theorem packageRootGo_no_slash {a : List Char} (h : '/' ∉ a) :
    ∀ (pre : List Char) (imp : String), packageRootGo pre a imp = imp := by
  induction a with
  | nil => intro pre imp; rfl
  | cons c cs ih =>
    intro pre imp
    have hc : c ≠ '/' := fun hc => h (hc ▸ List.mem_cons_self c cs)
    have hcs : '/' ∉ cs := fun hm => h (List.mem_cons_of_mem c hm)
    rw [packageRootGo, if_neg hc]
    exact ih hcs (pre ++ [c]) imp

theorem packageRootGo_to_slash {a : List Char} (h : '/' ∉ a) :
    ∀ (pre : List Char) (tail : List Char) (imp : String),
      String.mk (pre ++ a) ≠ "@types" →
      packageRootGo pre (a ++ '/' :: tail) imp = String.mk (pre ++ a) := by
  induction a with
  | nil =>
    intro pre tail imp hne
    rw [List.append_nil] at hne ⊢
    rw [List.nil_append, packageRootGo, if_pos rfl, if_neg hne]
  | cons c cs ih =>
    intro pre tail imp hne
    have hc : c ≠ '/' := fun hc => h (hc ▸ List.mem_cons_self c cs)
    have hcs : '/' ∉ cs := fun hm => h (List.mem_cons_of_mem c hm)
    rw [List.cons_append, packageRootGo, if_neg hc]
    have := ih hcs (pre ++ [c]) tail imp
    rw [List.append_assoc, List.singleton_append] at this
    exact this hne

theorem tryResolve_envEmpty (t : String) (frm : Label) :
    tryResolve envEmpty t frm =
      { label := Label.noLabel, selfImport := false, fileName := "", err := none } := rfl

theorem extLoop_envEmpty (cfg : JsConfig) (target : String) (frm : Label)
    (d dt : List String) : ∀ exts : List String,
    extLoop envEmpty cfg target frm d dt exts = .cont := by
  intro exts
  induction exts with
  | nil => rfl
  | cons e rest ih =>
    rw [extLoop]
    simp only [tryResolve_envEmpty]
    simpa using ih

theorem dupPar_succ_comm (n : Nat) : dupPar (n + 1) = "../" ++ dupPar n := by
  induction n with
  | zero => rfl
  | succ m ih =>
    show dupPar (m + 1) ++ "../" = "../" ++ (dupPar m ++ "../")
    rw [ih, String.append_assoc]

theorem data_dupPar_succ (n : Nat) :
    (dupPar (n + 1)).data = '.' :: '.' :: '/' :: (dupPar n).data := by
  rw [dupPar_succ_comm, String.data_append]
  rfl

theorem splitGo_dupPar (n : Nat) :
    splitGo (dupPar n).data [] = List.replicate n ".." ++ [""] := by
  induction n with
  | zero => rfl
  | succ m ih =>
    rw [data_dupPar_succ]
    show splitGo ('.' :: '.' :: '/' :: (dupPar m).data) [] = _
    rw [splitGo, if_neg (by decide), splitGo, if_neg (by decide), splitGo, if_pos rfl]
    rw [ih]
    rfl

theorem cleanStep_dotdot (m : Nat) :
    cleanStep false (List.replicate m "..") ".." = List.replicate (m + 1) ".." := by
  cases m with
  | zero => rfl
  | succ k => rfl

theorem cleanStack_rep (n : Nat) : ∀ m : Nat,
    List.foldl (cleanStep false) (List.replicate m "..") (List.replicate n "..") =
      List.replicate (n + m) ".." := by
  induction n with
  | zero => intro m; simp
  | succ k ih =>
    intro m
    rw [List.replicate_succ, List.foldl_cons, cleanStep_dotdot, ih (m + 1)]
    congr 1
    omega

theorem joinSegs_dotdot_ne (l : List String) :
    joinSegs (".." :: l) ≠ "." ∧ joinSegs (".." :: l) ≠ "" := by
  cases l with
  | nil => exact ⟨by decide, by decide⟩
  | cons a rest =>
    have : joinSegs (".." :: a :: rest) = ".." ++ "/" ++ joinSegs (a :: rest) := rfl
    rw [this]
    constructor
    · intro h
      have := congrArg String.data h
      rw [String.data_append, String.data_append] at this
      simp at this
    · intro h
      have := congrArg String.data h
      rw [String.data_append, String.data_append] at this
      simp at this

theorem dupPar_ne_empty (n : Nat) : dupPar (n + 1) ≠ "" := by
  intro h
  have := congrArg String.data h
  rw [data_dupPar_succ] at this
  simp at this

theorem listIsPre_slash_dot (l : List Char) : listIsPre ['/'] ('.' :: l) = false := by
  simp [listIsPre]

theorem cleanStep_empty_seg (r : Bool) (st : List String) : cleanStep r st "" = st := by
  simp [cleanStep]

theorem goClean_dupPar (n : Nat) :
    goClean (dupPar (n + 1)) = joinSegs (List.replicate (n + 1) "..") := by
  have hroot : strStarts (dupPar (n + 1)) "/" = false := by
    unfold strStarts
    rw [data_dupPar_succ]
    exact listIsPre_slash_dot _
  simp only [goClean, splitSlash]
  rw [if_neg (dupPar_ne_empty n), hroot, splitGo_dupPar (n + 1)]
  simp only [Bool.false_eq_true, if_false]
  rw [List.foldl_append]
  have h0 : List.foldl (cleanStep false) [] (List.replicate (n + 1) "..") =
      List.replicate (n + 1) ".." := by
    have := cleanStack_rep (n + 1) 0
    simpa using this
  rw [h0]
  simp only [List.foldl_cons, List.foldl_nil, cleanStep_empty_seg]
  rw [List.reverse_replicate]
  rw [if_neg]
  have hne := joinSegs_dotdot_ne (List.replicate n "..")
  rw [List.replicate_succ]
  exact hne.2

theorem goJoin_empty_dupPar (n : Nat) :
    goJoin ["", dupPar (n + 1)] = joinSegs (List.replicate (n + 1) "..") := by
  have hne : (dupPar (n + 1) != "") = true := by
    simp [bne_iff_ne, dupPar_ne_empty n]
  simp only [goJoin, List.filter]
  rw [hne]
  simp only [show (("" != "") = false) from rfl]
  exact goClean_dupPar n

theorem stopCond_false (n : Nat) :
    ¬("." = goJoin ["", dupPar n] ∨ goJoin ["", dupPar n] = ".") := by
  cases n with
  | zero => decide
  | succ m =>
    rw [goJoin_empty_dupPar m]
    have h := joinSegs_dotdot_ne (List.replicate m "..")
    rw [List.replicate_succ]
    rintro (h1 | h2)
    · exact h.1 h1.symm
    · exact h.1 h2

theorem walkGoF_diverges_aux :
    ∀ (fuel n : Nat),
      walkGoF fuel envEmpty cfg0 "./foo" (dupPar n) [] [] unitRoot = none := by
  intro fuel
  induction fuel with
  | zero => intro n; rfl
  | succ f ih =>
    intro n
    rw [walkGoF]
    simp only [show (("./foo" : String) = "package") = False by simp,
      show (("./foo" : String) = ".") = False by simp, if_false]
    rw [extLoop_envEmpty]
    show (if cfg0.jsRoot = goJoin [unitRoot.pkg, dupPar n] ∨
        goJoin [unitRoot.pkg, dupPar n] = "." then
        some ([], []) else walkGoF f envEmpty cfg0 "./foo" (dupPar n ++ "../") [] [] unitRoot) = none
    rw [if_neg]
    · exact ih (n + 1)
    · exact stopCond_false n

theorem extLoop_nodup (env : ResolveEnv) (cfg : JsConfig) (target : String) (frm : Label) :
    ∀ (exts d dt : List String) (r : List String × List String),
    d.Nodup → dt.Nodup → extLoop env cfg target frm d dt exts = .done r →
    r.1.Nodup ∧ r.2.Nodup := by
  intro exts
  induction exts with
  | nil =>
    intro d dt r _ _ h
    simp [extLoop] at h
  | cons e rest ih =>
    intro d dt r hd hdt h
    simp only [extLoop] at h
    split_ifs at h with h1 h2 h3 h4 h5
    · cases h; exact ⟨hd, hdt⟩
    · cases h; exact ⟨hd, hdt⟩
    · cases h; exact ⟨hd, insertD_nodup _ hdt⟩
    · cases h; exact ⟨insertD_nodup _ hd, hdt⟩
    · cases h; exact ⟨hd, insertD_nodup _ hdt⟩
    · exact ih d dt r hd hdt h

theorem walkGoF_nodup (env : ResolveEnv) (cfg : JsConfig) (frm : Label) :
    ∀ (fuel : Nat) (name parents : String) (d dt : List String)
      (r : List String × List String),
    d.Nodup → dt.Nodup → walkGoF fuel env cfg name parents d dt frm = some r →
    r.1.Nodup ∧ r.2.Nodup := by
  intro fuel
  induction fuel with
  | zero =>
    intro name parents d dt r _ _ h
    simp [walkGoF] at h
  | succ f ih =>
    intro name parents d dt r hd hdt h
    simp only [walkGoF] at h
    split at h
    · rename_i r' heq
      cases h
      exact extLoop_nodup env cfg _ frm _ d dt _ hd hdt heq
    · split at h
      · cases h; exact ⟨hd, hdt⟩
      · exact ih _ _ d dt r hd hdt h

theorem npmBranchAdd_nodup (cfg : JsConfig) (kind npmLabel : String) (devDep : Bool)
    (name : String) {d dt : List String} (hd : d.Nodup) (hdt : dt.Nodup) :
    (npmBranchAdd cfg kind npmLabel devDep name d dt).1.Nodup ∧
      (npmBranchAdd cfg kind npmLabel devDep name d dt).2.Nodup := by
  simp only [npmBranchAdd]
  split_ifs <;>
    exact ⟨by first
        | exact insertD_nodup _ (insertD_nodup _ hd)
        | exact insertD_nodup _ hd,
      by first
        | exact insertD_nodup _ hdt
        | exact hdt⟩

theorem processName_nodup (fuel : Nat) (env : ResolveEnv) (cfg : JsConfig)
    (kind : String) (frm : Label) (pkgJSON : String) (d dt : List String)
    (name0 : String) (r : List String × List String)
    (hd : d.Nodup) (hdt : dt.Nodup)
    (h : processName fuel env cfg kind frm pkgJSON d dt name0 = some r) :
    r.1.Nodup ∧ r.2.Nodup := by
  simp only [processName] at h
  split_ifs at h with h1 h2 h3 h4 h5 h6 h7 h8 h9
  all_goals first
    | (cases h
       first
        | exact ⟨insertD_nodup _ hd, hdt⟩
        | exact npmBranchAdd_nodup cfg kind _ _ _ hd hdt
        | exact ⟨hd, hdt⟩)
    | skip
  all_goals first
    | (split at h
       · cases h; exact ⟨insertD_nodup _ hd, hdt⟩
       · cases h; exact ⟨hd, hdt⟩)
    | exact walkGoF_nodup env cfg frm fuel _ _ d dt r hd hdt h
    | (cases h; exact ⟨hd, hdt⟩)

theorem foldNames_nodup (fuel : Nat) (env : ResolveEnv) (cfg : JsConfig)
    (kind : String) (frm : Label) (pkgJSON : String) :
    ∀ (names : List String) (d dt : List String) (r : List String × List String),
    d.Nodup → dt.Nodup →
    foldNames fuel env cfg kind frm pkgJSON names d dt = some r →
    r.1.Nodup ∧ r.2.Nodup := by
  intro names
  induction names with
  | nil =>
    intro d dt r hd hdt h
    cases h
    exact ⟨hd, hdt⟩
  | cons n rest ih =>
    intro d dt r hd hdt h
    simp only [foldNames] at h
    split at h
    · exact absurd h (by simp)
    · rename_i d' dt' heq
      have hp := processName_nodup fuel env cfg kind frm pkgJSON d dt n (d', dt') hd hdt heq
      exact ih d' dt' r hp.1 hp.2 h

theorem jestFold_nodup :
    ∀ (tbl : List (String × String)) (d dt : List String),
    d.Nodup → dt.Nodup →
    (jestFold tbl d dt).1.Nodup ∧ (jestFold tbl d dt).2.Nodup := by
  intro tbl
  induction tbl with
  | nil => intro d dt hd hdt; exact ⟨hd, hdt⟩
  | cons p rest ih =>
    intro d dt hd hdt
    obtain ⟨nm, l⟩ := p
    simp only [jestFold]
    split_ifs with c1 c2 c3
    · exact ih d dt hd hdt
    · exact ih _ _ (insertD_nodup _ (insertD_nodup _ hd)) (insertD_nodup _ hdt)
    · exact ih _ _ (insertD_nodup _ hd) (insertD_nodup _ hdt)
    · exact ih _ _ (insertD_nodup _ hd) hdt
    · exact ih _ _ hd hdt

theorem jestExtras_nodup (env : ResolveEnv) (cfg : JsConfig) (kind : String)
    {d dt : List String} (hd : d.Nodup) (hdt : dt.Nodup) :
    (jestExtras env cfg kind d dt).1.Nodup ∧ (jestExtras env cfg kind d dt).2.Nodup := by
  simp only [jestExtras]
  split_ifs
  · have h := jestFold_nodup cfg.devDependencies d dt hd hdt
    exact ⟨h.1, insertD_nodup _ h.2⟩
  · have h := jestFold_nodup cfg.devDependencies d dt hd hdt
    exact ⟨h.1, insertD_nodup _ h.2⟩
  · exact ⟨hd, hdt⟩

theorem computeSets_nodup (fuel : Nat) (env : ResolveEnv) (cfg : JsConfig)
    (imps : List String) (kind : String) (frm : Label) (pkgJSON : String)
    (r : List String × List String)
    (h : computeSets fuel env cfg imps kind frm pkgJSON = some r) :
    r.1.Nodup ∧ r.2.Nodup := by
  simp only [computeSets] at h
  split at h
  · exact absurd h (by simp)
  · rename_i d' dt' heq
    cases h
    have hp := foldNames_nodup fuel env cfg kind frm pkgJSON imps [] [] (d', dt')
      List.nodup_nil List.nodup_nil heq
    exact jestExtras_nodup env cfg kind hp.1 hp.2

theorem derelOv_ne {ov1 frm : Label} (h : ov1 ≠ frm) : derelOv ov1 frm ≠ frm := by
  by_cases hr : ov1.repo = frm.repo
  · simp only [derelOv, if_pos hr]
    intro hEq
    apply h
    have hfr : frm.repo = "" := by rw [← hEq]
    have hor : ov1.repo = "" := hr.trans hfr
    cases ov1
    cases frm
    simp_all
  · simp only [derelOv, if_neg hr]
    exact h

/-! ## Claim theorems -/

/-- C1 (counterexample): with two owners for the probed path `"p/a"`,
the resolution of identifier `"a"` fails with the ambiguity error, yet
the unit's resolution is not aborted: the later identifier `"b"` is
still processed and its edge `":bb"` is rendered onto the unit. -/
theorem C1_counterexample :
    tryResolve envAmb "p/a" unitP =
      { label := Label.noLabel, selfImport := false, fileName := "",
        err := some "multiple rules (//a:x and //b:y) provide p/a" } ∧
    ResolveF 2 envAmb cfg0 ["a", "b"] ⟨"lib", none, none⟩ unitP =
      some ⟨"lib", some [":bb"], none⟩ :=
  ⟨rfl, rfl⟩

/-- C1 (amended): a Build Index query returning more than one owner
makes `tryResolve` fail with an Ambiguous error naming the first two
conflicting owners (not all of them); the error aborts only the current
identifier's resolution (for the manifest reference it aborts the whole
unit), and the unit's remaining identifiers are still processed. -/
theorem tryResolve_ambiguous (env : ResolveEnv) (t : String) (frm : Label)
    (m0 m1 : Label) (rest : List Label)
    (hO : env.override t = none) (hI : env.index t = m0 :: m1 :: rest) :
    tryResolve env t frm =
      { label := Label.noLabel, selfImport := false, fileName := "",
        err := some ("multiple rules (" ++ labelRender m0 ++ " and " ++ labelRender m1
          ++ ") provide " ++ t) } := by
  simp [tryResolve, tryResolveIdx, hO, hI]

/-- Witness for `tryResolve_ambiguous` at a concrete ambiguous index. -/
theorem tryResolve_ambiguous_witness :
    tryResolve envAmb "p/a" unitP =
      { label := Label.noLabel, selfImport := false, fileName := "",
        err := some ("multiple rules (" ++ labelRender ⟨"", "a", "x", false⟩ ++ " and "
          ++ labelRender ⟨"", "b", "y", false⟩ ++ ") provide " ++ "p/a") } :=
  tryResolve_ambiguous envAmb "p/a" unitP ⟨"", "a", "x", false⟩ ⟨"", "b", "y", false⟩ []
    rfl rfl

/-- C2 (counterexample): for a `jest_test` unit, the dev-dependency
table entry `jest ↦ @npm//` is added to the runtime/data set, so a
label drawn from the dev-dependency table does reach the data
attribute. -/
theorem C2_counterexample :
    lookupTbl cfgJest.devDependencies "jest" = some "@npm//" ∧
    ResolveF 1 envEmpty cfgJest [] ⟨"jest_test", none, none⟩ unitP =
      some ⟨"jest_test", some ["@npm//jest"], some ["@npm//jest", "//:package_json"]⟩ :=
  ⟨rfl, rfl⟩

/-- C2 (amended): identifier classification never adds a dev-dependency
label to the runtime/data set — when `isNpmDependency` classifies the
(aliased) identifier as a dev dependency, `processName` leaves the data
set exactly unchanged.  (Dev-dependency labels can still enter the data
set through the `jest_test` extras, as the counterexample shows.) -/
theorem processName_devdep_no_data (fuel : Nat) (env : ResolveEnv) (cfg : JsConfig)
    (kind : String) (frm : Label) (pkgJSON : String) (d dt : List String)
    (name0 l : String)
    (h1 : name0 ≠ "package") (h2 : name0 ≠ "package.json")
    (h3 : isNpmDependency (applyAliases cfg.importAliases name0) cfg = (true, l, true)) :
    ∃ d', processName fuel env cfg kind frm pkgJSON d dt name0 = some (d', dt) := by
  simp only [processName, h3]
  rw [if_neg (not_or.mpr ⟨h1, h2⟩)]
  exact ⟨_, rfl⟩

/-- Witness for `processName_devdep_no_data` on the concrete dev
dependency `jest`. -/
theorem processName_devdep_no_data_witness :
    ∃ d', processName 1 envEmpty cfgJest "lib" unitP "//:package" [] [] "jest" =
      some (d', []) :=
  processName_devdep_no_data 1 envEmpty cfgJest "lib" unitP "//:package" [] []
    "jest" "@npm//" (by decide) (by decide) rfl

/-- C3 (counterexample): the same input set of identifiers
`{zz, aa}`, presented in two admissible Go map iteration orders, renders
two different attribute lists — and neither run sorts: the first emits
`["@npm//zz", "@npm//aa"]`, which is not in sorted order.  Rendering is
therefore not order-stable across runs and performs no sort. -/
theorem C3_counterexample :
    ResolveF 1 envEmpty cfgTwo ["zz", "aa"] ⟨"lib", none, none⟩ unitP =
      some ⟨"lib", some ["@npm//zz", "@npm//aa"], some ["@npm//zz", "@npm//aa"]⟩ ∧
    ResolveF 1 envEmpty cfgTwo ["aa", "zz"] ⟨"lib", none, none⟩ unitP =
      some ⟨"lib", some ["@npm//aa", "@npm//zz"], some ["@npm//aa", "@npm//zz"]⟩ ∧
    (["@npm//zz", "@npm//aa"] : List String) ≠ ["@npm//aa", "@npm//zz"] :=
  ⟨rfl, rfl, by decide⟩

/-- C3 (amended): the rendered attribute lists are deduplicated (no
label appears twice) and never empty — an empty computed set removes the
attribute instead — but they are emitted in map iteration order, which
is neither sorted nor guaranteed stable across runs. -/
theorem resolve_rendered_nodup (fuel : Nat) (env : ResolveEnv) (cfg : JsConfig)
    (imps : List String) (r : Rule) (frm : Label) (r' : Rule)
    (h1 : (tryResolve env "package.json" frm).err = none)
    (h2 : (tryResolve env "package.json" frm).selfImport = false)
    (hr : ResolveF fuel env cfg imps r frm = some r') :
    (∀ l, r'.deps = some l → l.Nodup ∧ l ≠ []) ∧
    (∀ l, r'.data = some l → l.Nodup ∧ l ≠ []) := by
  simp only [ResolveF] at hr
  rw [h1, h2] at hr
  simp only [ne_eq, not_true_eq_false, if_false, Bool.false_eq_true] at hr
  split at hr
  · exact absurd hr (by simp)
  · rename_i d dt heq
    cases hr
    have hp := computeSets_nodup fuel env cfg imps r.kind frm _ (d, dt) heq
    constructor
    · intro l hl
      simp only [renderRule] at hl
      split at hl
      · exact absurd hl (by simp)
      · rename_i hne
        cases hl
        exact ⟨hp.1, hne⟩
    · intro l hl
      simp only [renderRule] at hl
      split at hl
      · exact absurd hl (by simp)
      · rename_i hne
        cases hl
        exact ⟨hp.2, hne⟩

/-- Witness for `resolve_rendered_nodup` on a concrete run. -/
theorem resolve_rendered_nodup_witness :
    (∀ l, (Rule.mk "lib" (some ["@npm//aa", "@npm//zz"]) (some ["@npm//aa", "@npm//zz"])).deps
        = some l → l.Nodup ∧ l ≠ []) ∧
    (∀ l, (Rule.mk "lib" (some ["@npm//aa", "@npm//zz"]) (some ["@npm//aa", "@npm//zz"])).data
        = some l → l.Nodup ∧ l ≠ []) :=
  resolve_rendered_nodup 1 envEmpty cfgTwo ["aa", "zz"] ⟨"lib", none, none⟩ unitP
    ⟨"lib", some ["@npm//aa", "@npm//zz"], some ["@npm//aa", "@npm//zz"]⟩ rfl rfl rfl

/-- C4 (counterexample): with the dependency table keyed by the full
scoped name `"@foo/bar"`, the import `"@foo/bar/x"` is *not* looked up
under root `"@foo/bar"`: the extracted root is `"@foo"`, the table
lookup misses, and classification falls back to the configured default
label instead of the table entry. -/
theorem C4_counterexample :
    packageRootOf "@foo/bar/x" = "@foo" ∧
    lookupTbl cfgScoped.dependencies "@foo/bar" = some "@npm//" ∧
    isNpmDependency "@foo/bar/x" cfgScoped = (true, "@default//", false) :=
  ⟨rfl, rfl, rfl⟩

/-- C4 (amended): the extracted package root is the first path segment
of the identifier — for a scoped identifier such as `"@foo/bar/x"` the
root is `"@foo"`, not `"@foo/bar"` — except that a leading `"@types"`
segment is extended by the following segment, so
`"@types/" ++ b ++ "/" ++ c` has root `"@types/" ++ b`. -/
theorem packageRoot_spec :
    (∀ a b : String, '/' ∉ a.data → a ≠ "@types" →
      packageRootOf (a ++ "/" ++ b) = a) ∧
    (∀ b c : String, '/' ∉ b.data →
      packageRootOf ("@types/" ++ b ++ "/" ++ c) = "@types/" ++ b) := by
  constructor
  · intro a b ha hne
    have hdata : (a ++ "/" ++ b).data = a.data ++ '/' :: b.data := by
      rw [String.data_append, String.data_append]
      simp
    rw [packageRootOf, hdata]
    have h2 := packageRootGo_to_slash ha [] b.data (a ++ "/" ++ b)
    rw [List.nil_append] at h2
    have hmk : String.mk a.data = a := rfl
    rw [hmk] at h2
    exact h2 hne
  · intro b c hb
    have hdata : ("@types/" ++ b ++ "/" ++ c).data =
        '@' :: 't' :: 'y' :: 'p' :: 'e' :: 's' :: '/' :: (b.data ++ '/' :: c.data) := by
      rw [String.data_append, String.data_append, String.data_append]
      simp
    rw [packageRootOf, hdata]
    show packageRootGo ['@', 't', 'y', 'p', 'e', 's', '/'] (b.data ++ '/' :: c.data)
        ("@types/" ++ b ++ "/" ++ c) = "@types/" ++ b
    have h2 := packageRootGo_to_slash hb ['@', 't', 'y', 'p', 'e', 's', '/'] c.data
      ("@types/" ++ b ++ "/" ++ c)
    have hmk : String.mk (['@', 't', 'y', 'p', 'e', 's', '/'] ++ b.data) =
        "@types/" ++ b := by
      have hd : ("@types/" ++ b).data = ['@', 't', 'y', 'p', 'e', 's', '/'] ++ b.data := by
        rw [String.data_append]
      rw [← hd]
    rw [hmk] at h2
    apply h2
    intro hEq
    have hlen := congrArg (fun s : String => s.data.length) hEq
    simp only [String.data_append, List.length_append] at hlen
    simp at hlen
    omega

/-- Witness for `packageRoot_spec` at concrete scoped and typed
identifiers. -/
theorem packageRoot_spec_witness :
    packageRootOf ("@foo" ++ "/" ++ "bar/x") = "@foo" ∧
    packageRootOf ("@types/" ++ "foo" ++ "/" ++ "x") = "@types/" ++ "foo" :=
  ⟨packageRoot_spec.1 "@foo" "bar/x" (by decide) (by decide),
   packageRoot_spec.2 "foo" "x" (by decide)⟩

/-- C5 (counterexample): the identifier `"@types/foo"` has a package
root starting with `"@"` that is in neither dependency table, yet
classification does not yield an external package under the default
label — it returns not-an-npm-dependency and the identifier falls
through to local-path resolution. -/
theorem C5_counterexample :
    strStarts "@types/foo" "@" = true ∧
    packageRootOf "@types/foo" = "@types/foo" ∧
    lookupTbl cfg0.dependencies (packageRootOf "@types/foo") = none ∧
    lookupTbl cfg0.devDependencies (packageRootOf "@types/foo") = none ∧
    isNpmDependency "@types/foo" cfg0 = (false, "", false) :=
  ⟨rfl, rfl, rfl, rfl, rfl⟩

/-- C5 (amended): an identifier free of the excluded relative/alias
prefixes, whose package root is in neither table, and which starts with
`"@"` but not with `"@types"`, is classified as an external package
under the configured default label; this path never fails.
Identifiers starting with `"@types"` instead fall through to local-path
resolution. -/
theorem isNpm_default_label (cfg : JsConfig) (imp : String)
    (h1 : hasAnyPre npmExcludedPre imp = false)
    (h2 : lookupTbl cfg.dependencies (packageRootOf imp) = none)
    (h3 : lookupTbl cfg.devDependencies (packageRootOf imp) = none)
    (h4 : strStarts imp "@" = true)
    (h5 : strStarts imp "@types" = false) :
    isNpmDependency imp cfg = (true, cfg.defaultNpmLabel, false) := by
  simp only [isNpmDependency, h1, h2, h3, h4, h5]
  simp

/-- Witness for `isNpm_default_label` on a concrete scoped package with
empty tables. -/
theorem isNpm_default_label_witness :
    isNpmDependency "@scope/pkg" cfg0 = (true, cfg0.defaultNpmLabel, false) :=
  isNpm_default_label cfg0 "@scope/pkg" rfl rfl rfl rfl rfl

/-- C6 (counterexample): when the manifest probe fails (ambiguous
owners for `"package.json"`), the resolution pass returns early and the
unit's previous attribute values survive unchanged, even though the
newly computed sets are empty and the claim would require the
attributes to be removed. -/
theorem C6_counterexample :
    (tryResolve envManifestAmb "package.json" unitP).err ≠ none ∧
    computeSets 1 envManifestAmb cfg0 [] "lib" unitP "//:package" = some ([], []) ∧
    ResolveF 1 envManifestAmb cfg0 [] ⟨"lib", some ["old"], some ["olddata"]⟩ unitP =
      some ⟨"lib", some ["old"], some ["olddata"]⟩ :=
  ⟨by decide, rfl, rfl⟩

/-- C6 (amended): on every resolution pass that survives the manifest
lookup (no error and no manifest self-import), the two attributes are
replaced wholesale — their final values are determined by the inputs and
the unit's kind alone, independent of the attributes' previous values,
and an empty computed set yields a removed attribute (never an empty
list).  A pass aborted by the manifest probe leaves both attributes
untouched. -/
theorem resolve_replaces_wholesale (fuel : Nat) (env : ResolveEnv) (cfg : JsConfig)
    (imps : List String) (r1 r2 : Rule) (frm : Label) (s1 s2 : Rule)
    (h1 : (tryResolve env "package.json" frm).err = none)
    (h2 : (tryResolve env "package.json" frm).selfImport = false)
    (hk : r1.kind = r2.kind)
    (hr1 : ResolveF fuel env cfg imps r1 frm = some s1)
    (hr2 : ResolveF fuel env cfg imps r2 frm = some s2) :
    s1.deps = s2.deps ∧ s1.data = s2.data ∧
    (∀ l, s1.deps = some l → l ≠ []) ∧ (∀ l, s1.data = some l → l ≠ []) := by
  simp only [ResolveF] at hr1 hr2
  rw [h1, h2] at hr1
  rw [h1, h2] at hr2
  simp only [ne_eq, not_true_eq_false, if_false, Bool.false_eq_true] at hr1 hr2
  rw [hk] at hr1
  split at hr1
  · exact absurd hr1 (by simp)
  · rename_i d dt heq
    rw [heq] at hr2
    cases hr1
    cases hr2
    refine ⟨rfl, rfl, ?_, ?_⟩
    · intro l hl
      simp only [renderRule] at hl
      split at hl
      · exact absurd hl (by simp)
      · rename_i hne
        cases hl
        exact hne
    · intro l hl
      simp only [renderRule] at hl
      split at hl
      · exact absurd hl (by simp)
      · rename_i hne
        cases hl
        exact hne

/-- Witness for `resolve_replaces_wholesale`: two rules with different
previous attribute values end the pass with identical attributes. -/
theorem resolve_replaces_wholesale_witness :
    (Rule.mk "lib" (some ["@npm//aa"]) (some ["@npm//aa"])).deps =
      (Rule.mk "lib" (some ["@npm//aa"]) (some ["@npm//aa"])).deps ∧
    (Rule.mk "lib" (some ["@npm//aa"]) (some ["@npm//aa"])).data =
      (Rule.mk "lib" (some ["@npm//aa"]) (some ["@npm//aa"])).data ∧
    (∀ l, (Rule.mk "lib" (some ["@npm//aa"]) (some ["@npm//aa"])).deps = some l → l ≠ []) ∧
    (∀ l, (Rule.mk "lib" (some ["@npm//aa"]) (some ["@npm//aa"])).data = some l → l ≠ []) :=
  resolve_replaces_wholesale 1 envEmpty cfgTwo ["aa"]
    ⟨"lib", some ["x"], none⟩ ⟨"lib", none, some ["y"]⟩ unitP
    ⟨"lib", some ["@npm//aa"], some ["@npm//aa"]⟩
    ⟨"lib", some ["@npm//aa"], some ["@npm//aa"]⟩
    rfl rfl rfl rfl rfl

/-- C7 (counterexample): the override table maps `"x"` to the importing
unit itself, but instead of treating the identifier as self-referential
with no edge, resolution falls through to the Build Index, which owns
`"x"` through a different rule, and the edge `"//q:u"` is emitted. -/
theorem C7_counterexample :
    envOvSelf.override "x" = some unitP ∧
    ResolveF 2 envOvSelf cfg0 ["x"] ⟨"lib", none, none⟩ unitP =
      some ⟨"lib", some ["//q:u"], none⟩ :=
  ⟨rfl, rfl⟩

/-- C7 (amended): an override hit whose label, after filling an empty
repo with the unit's repo, differs from the importing unit supplies that
label directly (with the repo dropped again when it matches the unit's),
bypassing all further classification; a hit equal to the importing unit
is ignored and resolution falls through to the normal Build Index query,
which may emit an edge to a different owner. -/
theorem tryResolve_override_behavior :
    (∀ (env : ResolveEnv) (t : String) (frm : Label) (ov : Label),
      env.override t = some ov → normOv ov frm ≠ frm →
      tryResolve env t frm =
        { label := derelOv (normOv ov frm) frm, selfImport := false,
          fileName := "", err := none }) ∧
    (∀ (env : ResolveEnv) (t : String) (frm : Label) (ov : Label),
      env.override t = some ov → normOv ov frm = frm →
      tryResolve env t frm = tryResolveIdx env t frm) := by
  constructor
  · intro env t frm ov hov hne
    simp [tryResolve, hov, hne]
  · intro env t frm ov hov heq
    simp [tryResolve, hov, heq]

/-- Witness for `tryResolve_override_behavior`: both the direct-supply
case and the fall-through case at concrete inputs. -/
theorem tryResolve_override_behavior_witness :
    tryResolve { envEmpty with override := fun _ => some ⟨"", "q", "u", false⟩ } "y" unitP =
      { label := derelOv (normOv ⟨"", "q", "u", false⟩ unitP) unitP, selfImport := false,
        fileName := "", err := none } ∧
    tryResolve envOvSelf "x" unitP = tryResolveIdx envOvSelf "x" unitP :=
  ⟨tryResolve_override_behavior.1 _ "y" unitP ⟨"", "q", "u", false⟩ rfl (by decide),
   tryResolve_override_behavior.2 envOvSelf "x" unitP ⟨"", "p", "t", false⟩ rfl (by decide)⟩

/-- C8 (counterexample): a dependency-table entry can make the rendered
deps and data sets contain exactly the importing unit's own label: with
`lodash ↦ "//p:"` and the unit `//p:lodash` importing `"lodash"`, both
rendered sets hold the string `"//p:lodash"`, which is the unit's own
rendered label. -/
theorem C8_counterexample :
    ResolveF 1 envEmpty cfgLocalNpm ["lodash"] ⟨"lib", none, none⟩ ⟨"", "p", "lodash", false⟩ =
      some ⟨"lib", some ["//p:lodash"], some ["//p:lodash"]⟩ ∧
    labelRender ⟨"", "p", "lodash", false⟩ = "//p:lodash" :=
  ⟨rfl, rfl⟩

theorem tryResolveIdx_no_self (env : ResolveEnv) (t : String) (frm : Label)
    (h1 : (tryResolveIdx env t frm).err = none)
    (h2 : (tryResolveIdx env t frm).selfImport = false)
    (h3 : (tryResolveIdx env t frm).label ≠ Label.noLabel) :
    (tryResolveIdx env t frm).label ≠ frm := by
  rcases hidx : env.index t with _ | ⟨m, _ | ⟨m1, rest⟩⟩
  · exfalso
    apply h3
    cases hst : env.stat t <;> simp [tryResolveIdx, hidx, hst]
  · by_cases hm : m = frm
    · exfalso
      simp [tryResolveIdx, hidx, hm] at h2
    · simp only [tryResolveIdx, hidx, if_neg hm]
      exact hm
  · exfalso
    simp [tryResolveIdx, hidx] at h1

/-- C8 (amended): every label obtained from a direct or override Build
Index match is distinct from the importing unit — whenever `tryResolve`
returns with no error, no self-import signal, and a real label, that
label differs from the unit, so index- and override-derived edges never
target the unit itself.  Strings assembled from the dependency tables
are emitted without such a check and can coincide with the unit's own
label, as the counterexample shows. -/
theorem tryResolve_no_self_label (env : ResolveEnv) (t : String) (frm : Label)
    (h1 : (tryResolve env t frm).err = none)
    (h2 : (tryResolve env t frm).selfImport = false)
    (h3 : (tryResolve env t frm).label ≠ Label.noLabel) :
    (tryResolve env t frm).label ≠ frm := by
  rcases hov : env.override t with _ | ov
  · have e : tryResolve env t frm = tryResolveIdx env t frm := by
      simp [tryResolve, hov]
    rw [e] at h1 h2 h3 ⊢
    exact tryResolveIdx_no_self env t frm h1 h2 h3
  · by_cases hne : normOv ov frm = frm
    · have e : tryResolve env t frm = tryResolveIdx env t frm := by
        simp [tryResolve, hov, hne]
      rw [e] at h1 h2 h3 ⊢
      exact tryResolveIdx_no_self env t frm h1 h2 h3
    · have e : tryResolve env t frm =
          { label := derelOv (normOv ov frm) frm, selfImport := false,
            fileName := "", err := none } := by
        simp [tryResolve, hov, hne]
      rw [e]
      exact derelOv_ne hne

/-- Witness for `tryResolve_no_self_label` at a concrete single-owner
index hit. -/
theorem tryResolve_no_self_label_witness :
    (tryResolve envAmb "p/b" unitP).label ≠ unitP :=
  tryResolve_no_self_label envAmb "p/b" unitP rfl rfl (by decide)

/-- C9: local-path resolution does not terminate on every input.  For a
unit in the repository-root package (`Pkg = ""`) with project root
`"."`, resolving an import that matches no rule and no file never
reaches either stop condition: the walked directory goes `""`, `".."`,
`"../.."`, … and never equals the project root or `"."`, so for every
fuel bound the loop is still running. -/
theorem resolveWalkParents_diverges (fuel : Nat) :
    resolveWalkParentsF fuel envEmpty cfg0 "./foo" [] [] unitRoot = none :=
  walkGoF_diverges_aux fuel 0

/-- C10: in the external (npm dependency-table) branch, every label
inserted into the runtime/data set is also present in the resulting
compile-time set: any member of the produced data set was either already
in the data set or is a member of the produced deps set. -/
theorem npm_data_subset_deps (cfg : JsConfig) (kind npmLabel : String) (dev : Bool)
    (name : String) (d dt : List String) (s : String)
    (hs : s ∈ (npmBranchAdd cfg kind npmLabel dev name d dt).2) :
    s ∈ dt ∨ s ∈ (npmBranchAdd cfg kind npmLabel dev name d dt).1 := by
  cases dev
  · simp only [npmBranchAdd, Bool.false_eq_true, if_false] at hs ⊢
    rcases mem_insertD.mp hs with rfl | h
    · right
      split_ifs
      · exact mem_insertD_of_mem _ (self_mem_insertD _ d)
      · exact self_mem_insertD _ d
      · exact self_mem_insertD _ d
    · exact Or.inl h
  · simp only [npmBranchAdd, if_pos] at hs
    exact Or.inl hs

/-- Witness for `npm_data_subset_deps` at a concrete insertion. -/
theorem npm_data_subset_deps_witness :
    "@npm//x" ∈ ([] : List String) ∨
    "@npm//x" ∈ (npmBranchAdd cfg0 "lib" "@npm//" false "x" [] []).1 :=
  npm_data_subset_deps cfg0 "lib" "@npm//" false "x" [] [] "@npm//x" (by decide)
